import Mathlib

/-!
Verification development for the similarity-network construction engine of
`make_network.ipynb` (Reddit Russia-Ukraine discourse analysis).

The engine is shallowly embedded:
* a post record is the pair of columns the engine reads, `(author_name, subreddit)`;
* floating point numbers are modelled as exact rationals;
* the `user_vectors` Python dict is an ordered association list
  (Python dicts preserve insertion order, which the code relies on);
* the comparison `sim_matrix[i, j] >= threshold`, where
  `sim = dot v w / (n v * n w)` with `n x = sqrt (normSq x)` after the
  substitution `norms[norms == 0] = 1.0`, is rendered as a Boolean decision
  `simGE` via the sign-split squared comparison, which is equivalent because
  the substituted squared norms are strictly positive;
* writing the output file in mode `'w'` is modelled as a function from the
  previous file content and the edge list to the new file content.
-/

/-- Post record, reduced to the two columns the engine reads:
`(author_name, subreddit)`. -/
abbrev Post := String × String

/-- Behavioral vector: one rational coordinate per subreddit. -/
abbrev Vec := List ℚ

/-- Count of posts of user `u` in subreddit `s`: one entry of
`df.groupby(['author_name', 'subreddit']).size()`. -/
def postCount (df : List Post) (u s : String) : ℕ :=
  df.countP (fun p => decide (p.1 = u ∧ p.2 = s))

/-- Total posts of user `u`: one entry of
`user_subreddit_counts.groupby('author_name')['count'].sum()`. -/
def userTotal (df : List Post) (u : String) : ℕ :=
  df.countP (fun p => decide (p.1 = u))

/-- The constant `lurker_threshold = 3` of `create_user_vectors`. -/
def lurker_threshold : ℕ := 3

/-- Code-point lexicographic comparison of character lists: the order
Python's `sorted` uses on strings. -/
def lexLe : List Char → List Char → Bool
  | [], _ => true
  | _ :: _, [] => false
  | a :: as, b :: bs =>
    if a.val.toNat < b.val.toNat then true
    else if b.val.toNat < a.val.toNat then false
    else lexLe as bs

/-- Python string comparison `s <= t` (code-point lexicographic). -/
def strLe (s t : String) : Bool := lexLe s.data t.data

/-- The vocabulary `all_subreddits = sorted(df['subreddit'].unique())`. -/
def allSubreddits (df : List Post) : List String :=
  List.insertionSort (fun a b => strLe a b = true) (df.map Prod.snd).dedup

/-- Users whose total meets the lurker cutoff, in sorted order (a pandas
groupby sorts its keys, and the `user_vectors` dict is filled in that
order): `user_total_posts[user_total_posts >= lurker_threshold]`. -/
def survivingUsers (df : List Post) : List String :=
  (List.insertionSort (fun a b => strLe a b = true) (df.map Prod.fst).dedup).filter
    (fun u => decide (lurker_threshold ≤ userTotal df u))

/-- The vector of one user: the coordinate for subreddit `s` is
`count / user_total_posts[user]`, and `0` where no `(user, s)` row exists
(the vector is initialized with `np.zeros`). -/
def userVector (df : List Post) (u : String) : Vec :=
  (allSubreddits df).map (fun s => (postCount df u s : ℚ) / (userTotal df u : ℚ))

/-- The function `create_user_vectors(df)` on its successful path: the
ordered user-to-vector map together with `all_subreddits`.  When no user
survives the cutoff the real function raises instead of returning (its
diagnostic print evaluates `next(iter(user_vectors.values()))`);
`create_user_vectors_run` below models that error path. -/
def create_user_vectors (df : List Post) : List (String × Vec) × List String :=
  ((survivingUsers df).map (fun u => (u, userVector df u)), allSubreddits df)

/-- Dot product of two vectors (`np.dot` of two rows). -/
def dot (v w : Vec) : ℚ := (List.zipWith (· * ·) v w).sum

/-- Squared Euclidean norm of a vector. -/
def normSq (v : Vec) : ℚ := dot v v

/-- Squared norm after the substitution `norms[norms == 0] = 1.0` performed
in both `deduplicate` and `generate_similarity_network_vectorized`. -/
def substNormSq (v : Vec) : ℚ := if normSq v = 0 then 1 else normSq v

/-- Boolean rendering of `sim_matrix[i, j] >= threshold` where
`sim_matrix[i, j] = dot v w / (n v * n w)` and `n x` is the Euclidean norm
of `x` with `0` replaced by `1`.  Since `n v * n w` is the positive square
root of `substNormSq v * substNormSq w`, the comparison `d / sqrt p ≥ t`
(`p > 0`) is equivalent to the sign-split squared comparison below. -/
def simGE (v w : Vec) (t : ℚ) : Bool :=
  if 0 ≤ dot v w then
    decide (t ≤ 0) || decide (t ^ 2 * (substNormSq v * substNormSq w) ≤ dot v w ^ 2)
  else
    decide (t < 0) && decide (dot v w ^ 2 ≤ t ^ 2 * (substNormSq v * substNormSq w))

/-- Inner loop `for j in range(i + 1, len(users))` of `deduplicate`:
a user already in `todrop` is skipped, otherwise it is added to `todrop`
when its similarity with the anchor vector `vi` reaches the threshold. -/
def innerMark (t : ℚ) (vi : Vec) : List (String × Vec) → List String → List String
  | [], td => td
  | (u, w) :: rest, td =>
    if u ∈ td then innerMark t vi rest td
    else if simGE vi w t then innerMark t vi rest (u :: td)
    else innerMark t vi rest td

/-- Outer loop `for i in range(len(users))` of `deduplicate`: an anchor
already in `todrop` is skipped, otherwise its inner loop runs over the
later users. -/
def outerMark (t : ℚ) : List (String × Vec) → List String → List String
  | [], td => td
  | (u, v) :: rest, td =>
    if u ∈ td then outerMark t rest td
    else outerMark t rest (innerMark t v rest td)

/-- One iteration of the while-loop of `deduplicate`: compute `todrop`
(starting from the empty set) and keep the users not in it, in order
(`{user: vector for user, vector in curr.items() if user not in todrop}`). -/
def dedupRound (t : ℚ) (curr : List (String × Vec)) : List (String × Vec) :=
  curr.filter (fun p => decide (p.1 ∉ outerMark t curr []))

/-- The while-loop of `deduplicate`, with `fuel = runs - iteration`:
`while len(curr) != prev and iteration < runs`. -/
def dedupAux (t : ℚ) : ℕ → ℤ → List (String × Vec) → List (String × Vec)
  | 0, _, curr => curr
  | fuel + 1, prev, curr =>
    if (curr.length : ℤ) = prev then curr
    else dedupAux t fuel (curr.length : ℤ) (dedupRound t curr)

/-- The function `deduplicate(vectors, threshold, runs)` on its successful
path; `prev` starts at `-1`.  The Python defaults are `threshold = 1` and
`runs = 5`.  When the loop body is entered with an empty working set the
real function raises in `np.linalg.norm(np.array([]), axis=1)`;
`deduplicate_run` below models that error path. -/
def deduplicate (vectors : List (String × Vec)) (threshold : ℚ) (runs : ℕ) :
    List (String × Vec) :=
  dedupAux threshold runs (-1) vectors

/-- The edge scan over `np.triu_indices_from(similarity_matrix, k=1)`:
row-major strict-upper-triangle order, keeping `(users[i], users[j])`
whenever `similarity_matrix[i, j] >= threshold`. -/
def edgePairs (t : ℚ) : List (String × Vec) → List (String × String)
  | [] => []
  | (u, v) :: rest =>
    rest.filterMap (fun q => if simGE v q.2 t then some (u, q.1) else none) ++
      edgePairs t rest

/-- The function `generate_similarity_network_vectorized(user_vectors_2,
threshold)` on its successful path: it first calls
`deduplicate(user_vectors_2, 1)` (so with the `runs` default `5`), then
scans the upper triangle.  The edge list it builds is returned here;
serialization is `edgeLines`/`writeEdgeFile`.  On an empty vector set the
real function raises (in `deduplicate` and in its own `axis=1`
normalization of the empty array); `generate_similarity_network_run` below
models those error paths. -/
def generate_similarity_network_vectorized (uv : List (String × Vec)) (threshold : ℚ) :
    List (String × String) :=
  edgePairs threshold (deduplicate uv 1 5)

/-- Calling `generate_similarity_network_vectorized` without supplying a
threshold: the Python default of the parameter is `threshold=0.1`. -/
def generate_similarity_network_default (uv : List (String × Vec)) :
    List (String × String) :=
  generate_similarity_network_vectorized uv (1 / 10)

/-- Serialization of the edge list: one line `f"{u1} {u2}\n"` per edge, in
list order. -/
def edgeLines (es : List (String × String)) : String :=
  String.join (es.map (fun e => e.1 ++ " " ++ e.2 ++ "\n"))

/-- The write `with open(output_file, 'w') as f: ...`: mode `'w'` truncates,
so the resulting file content ignores the previous content. -/
def writeEdgeFile (_prev : String) (es : List (String × String)) : String :=
  edgeLines es

/-- The call-site cell `edge_list_file_vec =
generate_similarity_network_vectorized(user_vectors, threshold=0.95)`:
the threshold `0.95` is supplied explicitly there. -/
def edge_list_file_vec (df : List Post) : List (String × String) :=
  generate_similarity_network_vectorized (create_user_vectors df).1 (95 / 100)

/-- Run model of `create_user_vectors` including its error path: before
returning, the function prints
`f"Example vector dimensions: {len(next(iter(user_vectors.values())))}"`,
and `next(iter(...))` raises `StopIteration` exactly when the
`user_vectors` dict is empty (the `except Exception` handler logs and
re-raises).  `none` models the raise; on a non-empty dict the function
returns `(user_vectors, all_subreddits)`. -/
def create_user_vectors_run (df : List Post) :
    Option (List (String × Vec) × List String) :=
  if (create_user_vectors df).1 = [] then none else some (create_user_vectors df)

/-- Run model of the while-loop of `deduplicate` including its error path:
whenever the loop body is entered with an empty working set,
`np.array([curr[user] for user in users])` is the 1-D empty array and
`np.linalg.norm(vecs, axis=1, keepdims=True)` raises (no axis 1), before
any marking happens.  `none` models the raise. -/
def dedupAuxRun (t : ℚ) : ℕ → ℤ → List (String × Vec) → Option (List (String × Vec))
  | 0, _, curr => some curr
  | fuel + 1, prev, curr =>
    if (curr.length : ℤ) = prev then some curr
    else if curr = [] then none
    else dedupAuxRun t fuel (curr.length : ℤ) (dedupRound t curr)

/-- Run model of `deduplicate(vectors, threshold, runs)` with the
empty-working-set crash of the loop body (`dedupAuxRun`). -/
def deduplicate_run (vectors : List (String × Vec)) (threshold : ℚ) (runs : ℕ) :
    Option (List (String × Vec)) :=
  dedupAuxRun threshold runs (-1) vectors

/-- Run model of `generate_similarity_network_vectorized` including its
error paths: the `deduplicate(user_vectors_2, 1)` call can raise (see
`dedupAuxRun`), and afterwards the function itself normalizes
`np.array([vectors[user] for user in users])` with `axis=1`, which raises
on an empty vector set for the same reason.  `none` models either raise. -/
def generate_similarity_network_run (uv : List (String × Vec)) (threshold : ℚ) :
    Option (List (String × String)) :=
  match deduplicate_run uv 1 5 with
  | none => none
  | some vectors => if vectors = [] then none else some (edgePairs threshold vectors)

/-- Specification-style description of one deduplication round: keep the
first user, drop every later user whose similarity with it reaches the
threshold, recurse on the remainder ("the first-encountered member of each
near-duplicate cluster survives"). -/
def greedyFilter (t : ℚ) : List (String × Vec) → List (String × Vec)
  | [] => []
  | p :: rest => p :: greedyFilter t (rest.filter (fun q => !simGE p.2 q.2 t))
termination_by l => l.length
decreasing_by
  simp only [List.length_cons]
  exact Nat.lt_succ_of_le (List.length_filter_le _ _)

theorem dot_nil_left (w : Vec) : dot [] w = 0 := rfl

theorem dot_nil_right (v : Vec) : dot v [] = 0 := by
  simp [dot]

theorem dot_cons (a b : ℚ) (v w : Vec) : dot (a :: v) (b :: w) = a * b + dot v w := by
  simp [dot]

theorem normSq_cons (a : ℚ) (v : Vec) : normSq (a :: v) = a * a + normSq v := by
  simp [normSq, dot_cons]

theorem normSq_nonneg (v : Vec) : 0 ≤ normSq v := by
  induction v with
  | nil => simp [normSq, dot]
  | cons a v ih =>
    rw [normSq_cons]
    exact add_nonneg (mul_self_nonneg a) ih

theorem substNormSq_pos (v : Vec) : 0 < substNormSq v := by
  unfold substNormSq
  by_cases h : normSq v = 0
  · simp [h]
  · simp only [h, if_false]
    exact lt_of_le_of_ne (normSq_nonneg v) (Ne.symm h)

theorem normSq_eq_zero_all_zero (v : Vec) (h : normSq v = 0) : ∀ x ∈ v, x = 0 := by
  induction v with
  | nil => simp
  | cons a v ih =>
    rw [normSq_cons] at h
    have ha : a * a = 0 ∧ normSq v = 0 := by
      constructor
      · nlinarith [normSq_nonneg v, mul_self_nonneg a]
      · nlinarith [normSq_nonneg v, mul_self_nonneg a]
    intro x hx
    rcases List.mem_cons.mp hx with hx | hx
    · subst hx
      exact mul_self_eq_zero.mp ha.1
    · exact ih ha.2 x hx

theorem dot_eq_zero_of_left_zero (v w : Vec) (h : ∀ x ∈ v, x = 0) : dot v w = 0 := by
  induction v generalizing w with
  | nil => rfl
  | cons a v ih =>
    cases w with
    | nil => exact dot_nil_right _
    | cons b w =>
      rw [dot_cons, h a (List.mem_cons_self a v), ih _ (fun x hx => h x (List.mem_cons_of_mem a hx)), zero_mul, add_zero]

theorem dot_eq_zero_of_right_zero (v w : Vec) (h : ∀ x ∈ w, x = 0) : dot v w = 0 := by
  induction v generalizing w with
  | nil => rfl
  | cons a v ih =>
    cases w with
    | nil => exact dot_nil_right _
    | cons b w =>
      rw [dot_cons, h b (List.mem_cons_self b w), mul_zero, ih _ (fun x hx => h x (List.mem_cons_of_mem b hx)), add_zero]

theorem dot_nonneg : ∀ v w : Vec, (∀ x ∈ v, 0 ≤ x) → (∀ x ∈ w, 0 ≤ x) → 0 ≤ dot v w := by
  intro v
  induction v with
  | nil => intro w _ _; simp [dot]
  | cons a v ih =>
    intro w hv hw
    cases w with
    | nil => simp [dot]
    | cons b w =>
      rw [dot_cons]
      have h1 : 0 ≤ a * b :=
        mul_nonneg (hv a (List.mem_cons_self a v)) (hw b (List.mem_cons_self b w))
      have h2 : 0 ≤ dot v w :=
        ih w (fun x hx => hv x (List.mem_cons_of_mem a hx))
          (fun x hx => hw x (List.mem_cons_of_mem b hx))
      linarith

theorem dot_sq_le_normSq_mul_normSq (v w : Vec) :
    dot v w ^ 2 ≤ normSq v * normSq w := by
  induction v generalizing w with
  | nil =>
    simp [dot, normSq]
  | cons a v ih =>
    cases w with
    | nil =>
      rw [dot_nil_right]
      have := normSq_nonneg (a :: v)
      have := normSq_nonneg ([] : Vec)
      nlinarith
    | cons b w =>
      rw [dot_cons, normSq_cons, normSq_cons]
      have hA : 0 ≤ normSq v := normSq_nonneg v
      have hB : 0 ≤ normSq w := normSq_nonneg w
      have hd : dot v w ^ 2 ≤ normSq v * normSq w := ih w
      have hS : 0 ≤ a ^ 2 * normSq w + normSq v * b ^ 2 :=
        add_nonneg (mul_nonneg (sq_nonneg a) hB) (mul_nonneg hA (sq_nonneg b))
      have key : 2 * (a * b * dot v w) ≤ a ^ 2 * normSq w + normSq v * b ^ 2 := by
        rcases le_or_lt (a * b * dot v w) 0 with h | h
        · linarith
        · by_contra hcon
          push_neg at hcon
          have h2 : (a ^ 2 * normSq w + normSq v * b ^ 2) ^ 2 < (2 * (a * b * dot v w)) ^ 2 :=
            pow_lt_pow_left₀ hcon hS (by norm_num)
          have h1 : (a * b) ^ 2 * dot v w ^ 2 ≤ (a * b) ^ 2 * (normSq v * normSq w) :=
            mul_le_mul_of_nonneg_left hd (sq_nonneg (a * b))
          nlinarith [sq_nonneg (a ^ 2 * normSq w - normSq v * b ^ 2)]
      nlinarith [key, hd]

theorem simGE_of_dot_eq_zero (v w : Vec) (t : ℚ) (hd : dot v w = 0) :
    simGE v w t = decide (t ≤ 0) := by
  have hp : 0 < substNormSq v * substNormSq w :=
    mul_pos (substNormSq_pos v) (substNormSq_pos w)
  unfold simGE
  rw [hd]
  rw [if_pos (le_refl (0 : ℚ))]
  by_cases ht : t ≤ 0
  · simp [ht]
  · have ht' : 0 < t := lt_of_not_le ht
    have h2 : ¬ (t ^ 2 * (substNormSq v * substNormSq w) ≤ (0 : ℚ) ^ 2) := by
      push_neg
      have h3 : 0 < t ^ 2 * (substNormSq v * substNormSq w) :=
        mul_pos (pow_pos ht' 2) hp
      nlinarith
    rw [decide_eq_false ht, decide_eq_false h2]
    rfl

theorem simGE_zero_of_dot_nonneg (v w : Vec) (hd : 0 ≤ dot v w) :
    simGE v w 0 = true := by
  unfold simGE
  rw [if_pos hd]
  simp

theorem simGE_false_of_gt_one (v w : Vec) (t : ℚ) (hd : 0 ≤ dot v w)
    (hv : normSq v ≠ 0) (hw : normSq w ≠ 0) (ht : 1 < t) : simGE v w t = false := by
  unfold simGE
  rw [if_pos hd]
  have hv' : 0 < normSq v := lt_of_le_of_ne (normSq_nonneg v) (Ne.symm hv)
  have hw' : 0 < normSq w := lt_of_le_of_ne (normSq_nonneg w) (Ne.symm hw)
  have hp : 0 < normSq v * normSq w := mul_pos hv' hw'
  have hcs := dot_sq_le_normSq_mul_normSq v w
  have h1 : ¬ (t ≤ 0) := by linarith
  have h2 : ¬ (t ^ 2 * (substNormSq v * substNormSq w) ≤ dot v w ^ 2) := by
    rw [substNormSq, substNormSq, if_neg hv, if_neg hw]
    push_neg
    have ht2 : 1 < t ^ 2 := by nlinarith [sq_nonneg (t - 1)]
    have hlt : normSq v * normSq w < t ^ 2 * (normSq v * normSq w) := by
      nlinarith [mul_pos (show 0 < t ^ 2 - 1 by linarith) hp]
    linarith
  rw [decide_eq_false h1, decide_eq_false h2]
  rfl

theorem innerMark_mem (t : ℚ) (vi : Vec) :
    ∀ (l : List (String × Vec)) (td : List String) (x : String),
      x ∈ innerMark t vi l td ↔ x ∈ td ∨ ∃ w, (x, w) ∈ l ∧ simGE vi w t = true := by
  intro l
  induction l with
  | nil => intro td x; simp [innerMark]
  | cons q rest ih =>
    intro td x
    obtain ⟨u, w⟩ := q
    simp only [innerMark]
    by_cases hu : u ∈ td
    · rw [if_pos hu, ih]
      constructor
      · rintro (h | ⟨w', hw', hs⟩)
        · exact Or.inl h
        · exact Or.inr ⟨w', List.mem_cons_of_mem _ hw', hs⟩
      · rintro (h | ⟨w', hw', hs⟩)
        · exact Or.inl h
        · rcases List.mem_cons.mp hw' with heq | hmem
          · injection heq with h1 h2
            subst h1
            exact Or.inl hu
          · exact Or.inr ⟨w', hmem, hs⟩
    · rw [if_neg hu]
      by_cases hs : simGE vi w t = true
      · rw [if_pos hs, ih]
        constructor
        · rintro (h | ⟨w', hw', hs'⟩)
          · rcases List.mem_cons.mp h with rfl | h
            · exact Or.inr ⟨w, List.mem_cons_self _ _, hs⟩
            · exact Or.inl h
          · exact Or.inr ⟨w', List.mem_cons_of_mem _ hw', hs'⟩
        · rintro (h | ⟨w', hw', hs'⟩)
          · exact Or.inl (List.mem_cons_of_mem _ h)
          · rcases List.mem_cons.mp hw' with heq | hmem
            · injection heq with h1 h2
              subst h1
              exact Or.inl (List.mem_cons_self _ _)
            · exact Or.inr ⟨w', hmem, hs'⟩
      · rw [if_neg hs, ih]
        constructor
        · rintro (h | ⟨w', hw', hs'⟩)
          · exact Or.inl h
          · exact Or.inr ⟨w', List.mem_cons_of_mem _ hw', hs'⟩
        · rintro (h | ⟨w', hw', hs'⟩)
          · exact Or.inl h
          · rcases List.mem_cons.mp hw' with heq | hmem
            · injection heq with h1 h2
              subst h1
              subst h2
              exact absurd hs' hs
            · exact Or.inr ⟨w', hmem, hs'⟩

theorem subset_innerMark (t : ℚ) (vi : Vec) (l : List (String × Vec)) (td : List String) :
    td ⊆ innerMark t vi l td := by
  intro x hx
  exact (innerMark_mem t vi l td x).mpr (Or.inl hx)

theorem outerMark_mem_of (t : ℚ) :
    ∀ (l : List (String × Vec)) (td : List String) (x : String),
      x ∈ outerMark t l td → x ∈ td ∨ x ∈ l.map Prod.fst := by
  intro l
  induction l with
  | nil => intro td x h; exact Or.inl h
  | cons q rest ih =>
    intro td x h
    obtain ⟨u, v⟩ := q
    simp only [outerMark] at h
    by_cases hu : u ∈ td
    · rw [if_pos hu] at h
      rcases ih td x h with h' | h'
      · exact Or.inl h'
      · exact Or.inr (List.mem_cons_of_mem _ h')
    · rw [if_neg hu] at h
      rcases ih _ x h with h' | h'
      · rcases (innerMark_mem t v rest td x).mp h' with h'' | ⟨w, hw, _⟩
        · exact Or.inl h''
        · exact Or.inr (List.mem_cons_of_mem _ (List.mem_map_of_mem Prod.fst hw))
      · exact Or.inr (List.mem_cons_of_mem _ h')

theorem subset_outerMark (t : ℚ) :
    ∀ (l : List (String × Vec)) (td : List String), td ⊆ outerMark t l td := by
  intro l
  induction l with
  | nil => intro td x hx; exact hx
  | cons q rest ih =>
    intro td x hx
    obtain ⟨u, v⟩ := q
    simp only [outerMark]
    by_cases hu : u ∈ td
    · rw [if_pos hu]
      exact ih td hx
    · rw [if_neg hu]
      exact ih _ (subset_innerMark t v rest td hx)

theorem key_inj :
    ∀ (l : List (String × Vec)), (l.map Prod.fst).Nodup →
      ∀ a b c, (a, b) ∈ l → (a, c) ∈ l → b = c := by
  intro l
  induction l with
  | nil => intro _ a b c h; simp at h
  | cons q rest ih =>
    intro hn a b c hb hc
    obtain ⟨u, v⟩ := q
    rw [List.map_cons, List.nodup_cons] at hn
    rcases List.mem_cons.mp hb with hb' | hb' <;> rcases List.mem_cons.mp hc with hc' | hc'
    · injection hb' with h1 h2
      injection hc' with h3 h4
      rw [h2, h4]
    · injection hb' with h1 h2
      subst h1
      exact absurd (List.mem_map_of_mem Prod.fst hc') hn.1
    · injection hc' with h1 h2
      subst h1
      exact absurd (List.mem_map_of_mem Prod.fst hb') hn.1
    · exact ih hn.2 a b c hb' hc'

theorem greedyFilter_nil (t : ℚ) : greedyFilter t [] = [] := by
  simp [greedyFilter]

theorem greedyFilter_cons (t : ℚ) (p : String × Vec) (rest : List (String × Vec)) :
    greedyFilter t (p :: rest) =
      p :: greedyFilter t (rest.filter (fun q => !simGE p.2 q.2 t)) := by
  rw [greedyFilter]

theorem filter_outerMark_eq_greedy (t : ℚ) :
    ∀ (l : List (String × Vec)) (td : List String), (l.map Prod.fst).Nodup →
      l.filter (fun p => decide (p.1 ∉ outerMark t l td)) =
        greedyFilter t (l.filter (fun p => decide (p.1 ∉ td))) := by
  intro l
  induction l with
  | nil => intro td _; simp [greedyFilter_nil]
  | cons q rest ih =>
    intro td hn
    obtain ⟨u, v⟩ := q
    rw [List.map_cons, List.nodup_cons] at hn
    obtain ⟨hu_rest, hnr⟩ := hn
    by_cases hu : u ∈ td
    · have hOM : outerMark t ((u, v) :: rest) td = outerMark t rest td := by
        simp only [outerMark]
        rw [if_pos hu]
      rw [hOM]
      have hmem : u ∈ outerMark t rest td := subset_outerMark t rest td hu
      rw [List.filter_cons, List.filter_cons]
      rw [decide_eq_false (not_not_intro hmem), decide_eq_false (not_not_intro hu)]
      simp only [Bool.false_eq_true, if_false]
      exact ih td hnr
    · have hOM : outerMark t ((u, v) :: rest) td =
          outerMark t rest (innerMark t v rest td) := by
        simp only [outerMark]
        rw [if_neg hu]
      have hu1 : u ∉ innerMark t v rest td := by
        intro h
        rcases (innerMark_mem t v rest td u).mp h with h' | ⟨w, hw, _⟩
        · exact hu h'
        · exact hu_rest (List.mem_map.mpr ⟨(u, w), hw, rfl⟩)
      have huO : u ∉ outerMark t rest (innerMark t v rest td) := by
        intro h
        rcases outerMark_mem_of t rest _ u h with h' | h'
        · exact hu1 h'
        · exact hu_rest h'
      have hpt : ∀ q ∈ rest,
          decide (q.1 ∉ innerMark t v rest td) =
            (!simGE v q.2 t && decide (q.1 ∉ td)) := by
        intro q hq
        have hqq : (q.1, q.2) ∈ rest := by simpa using hq
        by_cases hs : simGE v q.2 t = true
        · have hin : q.1 ∈ innerMark t v rest td :=
            (innerMark_mem t v rest td q.1).mpr (Or.inr ⟨q.2, hqq, hs⟩)
          rw [decide_eq_false (not_not_intro hin), hs]
          rfl
        · have hs' : simGE v q.2 t = false := Bool.eq_false_iff.mpr hs
          by_cases htd : q.1 ∈ td
          · have hin : q.1 ∈ innerMark t v rest td := subset_innerMark t v rest td htd
            rw [decide_eq_false (not_not_intro hin), decide_eq_false (not_not_intro htd), hs']
            rfl
          · have hno : q.1 ∉ innerMark t v rest td := by
              intro h
              rcases (innerMark_mem t v rest td q.1).mp h with h' | ⟨w, hw, hsw⟩
              · exact htd h'
              · have hwq : w = q.2 := key_inj rest hnr q.1 w q.2 hw hqq
                exact hs (hwq ▸ hsw)
            rw [decide_eq_true hno, decide_eq_true htd, hs']
            rfl
      rw [hOM]
      rw [List.filter_cons, List.filter_cons]
      rw [decide_eq_true huO, decide_eq_true hu]
      simp only [if_true]
      rw [ih _ hnr]
      rw [List.filter_congr hpt]
      rw [greedyFilter_cons]
      rw [← List.filter_filter]

theorem dedupRound_eq_greedy (t : ℚ) (l : List (String × Vec))
    (hn : (l.map Prod.fst).Nodup) : dedupRound t l = greedyFilter t l := by
  have h := filter_outerMark_eq_greedy t l [] hn
  have h2 : l.filter (fun p => decide (p.1 ∉ ([] : List String))) = l :=
    List.filter_eq_self.mpr (fun a _ => by simp)
  rw [h2] at h
  exact h

theorem greedyFilter_sublist (t : ℚ) :
    ∀ n, ∀ l : List (String × Vec), l.length ≤ n → List.Sublist (greedyFilter t l) l := by
  intro n
  induction n with
  | zero =>
    intro l hl
    rw [List.eq_nil_of_length_eq_zero (Nat.le_zero.mp hl), greedyFilter_nil]
  | succ n ih =>
    intro l hl
    cases l with
    | nil => rw [greedyFilter_nil]
    | cons p rest =>
      rw [greedyFilter_cons]
      have hlen : (rest.filter (fun q => !simGE p.2 q.2 t)).length ≤ n :=
        le_trans (List.length_filter_le _ _)
          (Nat.lt_succ_iff.mp (lt_of_lt_of_le (Nat.lt_succ_self _) hl))
      exact List.Sublist.cons₂ p (List.Sublist.trans (ih _ hlen) (List.filter_sublist _))

theorem greedyFilter_pairwise (t : ℚ) :
    ∀ n, ∀ l : List (String × Vec), l.length ≤ n →
      List.Pairwise (fun p q => simGE p.2 q.2 t = false) (greedyFilter t l) := by
  intro n
  induction n with
  | zero =>
    intro l hl
    rw [List.eq_nil_of_length_eq_zero (Nat.le_zero.mp hl), greedyFilter_nil]
    exact List.Pairwise.nil
  | succ n ih =>
    intro l hl
    cases l with
    | nil =>
      rw [greedyFilter_nil]
      exact List.Pairwise.nil
    | cons p rest =>
      rw [greedyFilter_cons]
      rw [List.pairwise_cons]
      have hlen : (rest.filter (fun q => !simGE p.2 q.2 t)).length ≤ n :=
        le_trans (List.length_filter_le _ _)
          (Nat.lt_succ_iff.mp (lt_of_lt_of_le (Nat.lt_succ_self _) hl))
      constructor
      · intro q hq
        have hq' : q ∈ rest.filter (fun q => !simGE p.2 q.2 t) :=
          (greedyFilter_sublist t n _ hlen).subset hq
        have hb := (List.mem_filter.mp hq').2
        simpa using hb
      · exact ih _ hlen

theorem greedyFilter_eq_self (t : ℚ) :
    ∀ n, ∀ l : List (String × Vec), l.length ≤ n →
      List.Pairwise (fun p q => simGE p.2 q.2 t = false) l → greedyFilter t l = l := by
  intro n
  induction n with
  | zero =>
    intro l hl _
    rw [List.eq_nil_of_length_eq_zero (Nat.le_zero.mp hl), greedyFilter_nil]
  | succ n ih =>
    intro l hl hp
    cases l with
    | nil => rw [greedyFilter_nil]
    | cons p rest =>
      rw [List.pairwise_cons] at hp
      have hfil : rest.filter (fun q => !simGE p.2 q.2 t) = rest :=
        List.filter_eq_self.mpr (fun q hq => by rw [hp.1 q hq]; rfl)
      rw [greedyFilter_cons, hfil]
      have hlen : rest.length ≤ n := Nat.lt_succ_iff.mp (lt_of_lt_of_le (Nat.lt_succ_self _) hl)
      rw [ih rest hlen hp.2]

theorem dedupRound_sublist (t : ℚ) (l : List (String × Vec)) : List.Sublist (dedupRound t l) l :=
  List.filter_sublist _

theorem dedupRound_keys_nodup (t : ℚ) (l : List (String × Vec))
    (hn : (l.map Prod.fst).Nodup) : ((dedupRound t l).map Prod.fst).Nodup :=
  ((dedupRound_sublist t l).map Prod.fst).nodup hn

theorem dedupRound_idem (t : ℚ) (l : List (String × Vec))
    (hn : (l.map Prod.fst).Nodup) : dedupRound t (dedupRound t l) = dedupRound t l := by
  have hn2 : ((dedupRound t l).map Prod.fst).Nodup := dedupRound_keys_nodup t l hn
  rw [dedupRound_eq_greedy t (dedupRound t l) hn2]
  rw [dedupRound_eq_greedy t l hn]
  exact greedyFilter_eq_self t _ _ le_rfl
    (greedyFilter_pairwise t l.length l le_rfl)

theorem dedupAux_fix (t : ℚ) (c : List (String × Vec)) (hc : dedupRound t c = c) :
    ∀ fuel (prev : ℤ), dedupAux t fuel prev c = c := by
  intro fuel
  induction fuel with
  | zero => intro prev; rfl
  | succ n ih =>
    intro prev
    rw [dedupAux]
    by_cases h : (c.length : ℤ) = prev
    · rw [if_pos h]
    · rw [if_neg h, hc]
      exact ih _

theorem dedupAux_spec (t : ℚ) :
    ∀ fuel (prev : ℤ) (c : List (String × Vec)),
      ((c.length : ℤ) = prev → dedupRound t c = c) →
      ∃ k, k ≤ fuel ∧ dedupAux t fuel prev c = (dedupRound t)^[k] c ∧
        (k < fuel → dedupRound t (dedupAux t fuel prev c) = dedupAux t fuel prev c) := by
  intro fuel
  induction fuel with
  | zero =>
    intro prev c _
    exact ⟨0, le_refl 0, rfl, fun h' => absurd h' (lt_irrefl 0)⟩
  | succ n ih =>
    intro prev c h
    by_cases heq : (c.length : ℤ) = prev
    · refine ⟨0, Nat.zero_le _, ?_, ?_⟩
      · simp only [dedupAux, if_pos heq]
        rfl
      · intro _
        simp only [dedupAux, if_pos heq]
        exact h heq
    · have h' : ((dedupRound t c).length : ℤ) = (c.length : ℤ) →
          dedupRound t (dedupRound t c) = dedupRound t c := by
        intro hlen
        have hlen' : (dedupRound t c).length = c.length := by exact_mod_cast hlen
        have heqc : dedupRound t c = c := (dedupRound_sublist t c).eq_of_length hlen'
        rw [heqc]
        exact heqc
      obtain ⟨k, hk, heq2, hfix⟩ := ih (c.length : ℤ) (dedupRound t c) h'
      refine ⟨k + 1, Nat.succ_le_succ hk, ?_, ?_⟩
      · simp only [dedupAux, if_neg heq]
        rw [heq2, Function.iterate_succ_apply]
      · intro hlt
        simp only [dedupAux, if_neg heq]
        exact hfix (Nat.lt_of_succ_lt_succ hlt)

theorem dedupAux_sublist (t : ℚ) :
    ∀ fuel (prev : ℤ) (c : List (String × Vec)), List.Sublist (dedupAux t fuel prev c) c := by
  intro fuel
  induction fuel with
  | zero => intro prev c; exact List.Sublist.refl _
  | succ n ih =>
    intro prev c
    rw [dedupAux]
    by_cases h : (c.length : ℤ) = prev
    · rw [if_pos h]
    · rw [if_neg h]
      exact List.Sublist.trans (ih _ _) (dedupRound_sublist t c)

theorem iterate_round_keys_nodup (t : ℚ) (l : List (String × Vec))
    (hn : (l.map Prod.fst).Nodup) :
    ∀ k, (((dedupRound t)^[k] l).map Prod.fst).Nodup := by
  intro k
  induction k with
  | zero => exact hn
  | succ n ih =>
    rw [Function.iterate_succ_apply']
    exact dedupRound_keys_nodup t _ ih

theorem deduplicate_spec (uv : List (String × Vec)) (t : ℚ) (runs : ℕ) :
    ∃ k, k ≤ runs ∧ deduplicate uv t runs = (dedupRound t)^[k] uv ∧
      (k < runs → dedupRound t (deduplicate uv t runs) = deduplicate uv t runs) :=
  dedupAux_spec t runs (-1) uv (fun h => absurd h (by omega))

theorem dedupRound_ne_nil (t : ℚ) (l : List (String × Vec))
    (hn : (l.map Prod.fst).Nodup) (hne : l ≠ []) : dedupRound t l ≠ [] := by
  obtain ⟨p, rest, rfl⟩ := List.exists_cons_of_ne_nil hne
  rw [dedupRound_eq_greedy t _ hn, greedyFilter_cons]
  exact List.cons_ne_nil _ _

theorem iterate_round_ne_nil (t : ℚ) (uv : List (String × Vec))
    (hn : (uv.map Prod.fst).Nodup) (hne : uv ≠ []) :
    ∀ k, (dedupRound t)^[k] uv ≠ [] := by
  intro k
  induction k with
  | zero => exact hne
  | succ n ih =>
    rw [Function.iterate_succ_apply']
    exact dedupRound_ne_nil t _ (iterate_round_keys_nodup t uv hn n) ih

theorem deduplicate_ne_nil (uv : List (String × Vec)) (t : ℚ) (runs : ℕ)
    (hn : (uv.map Prod.fst).Nodup) (hne : uv ≠ []) : deduplicate uv t runs ≠ [] := by
  obtain ⟨k, _, heq, _⟩ := deduplicate_spec uv t runs
  rw [heq]
  exact iterate_round_ne_nil t uv hn hne k

theorem dedupAuxRun_eq (t : ℚ) :
    ∀ (fuel : ℕ) (prev : ℤ) (c : List (String × Vec)),
      (c.map Prod.fst).Nodup → c ≠ [] →
      dedupAuxRun t fuel prev c = some (dedupAux t fuel prev c) := by
  intro fuel
  induction fuel with
  | zero => intro prev c _ _; rfl
  | succ n ih =>
    intro prev c hn hne
    rw [dedupAuxRun, dedupAux]
    by_cases h : (c.length : ℤ) = prev
    · rw [if_pos h, if_pos h]
    · rw [if_neg h, if_neg h, if_neg hne]
      exact ih _ _ (dedupRound_keys_nodup t c hn) (dedupRound_ne_nil t c hn hne)

theorem generate_run_eq (uv : List (String × Vec)) (t : ℚ)
    (hn : (uv.map Prod.fst).Nodup) (hne : uv ≠ []) :
    generate_similarity_network_run uv t =
      some (generate_similarity_network_vectorized uv t) := by
  have h1 : deduplicate_run uv 1 5 = some (deduplicate uv 1 5) :=
    dedupAuxRun_eq 1 5 (-1) uv hn hne
  unfold generate_similarity_network_run
  rw [h1]
  show (if deduplicate uv 1 5 = [] then none
    else some (edgePairs t (deduplicate uv 1 5))) =
      some (generate_similarity_network_vectorized uv t)
  rw [if_neg (deduplicate_ne_nil uv 1 5 hn hne)]
  rfl

theorem sum_map_ite_eq (c : ℕ) :
    ∀ (L : List String) (a : String), L.Nodup → a ∈ L →
      (L.map (fun s => if a = s then c else 0)).sum = c := by
  intro L
  induction L with
  | nil => intro a _ h; simp at h
  | cons b rest ih =>
    intro a hn ha
    rw [List.map_cons, List.sum_cons]
    rw [List.nodup_cons] at hn
    by_cases hab : a = b
    · subst hab
      rw [if_pos rfl]
      have hz : (rest.map (fun s => if a = s then c else 0)).sum = 0 := by
        apply List.sum_eq_zero
        intro x hx
        rcases List.mem_map.mp hx with ⟨s, hs, hxs⟩
        rw [← hxs, if_neg (fun h => hn.1 (by rw [h]; exact hs))]
      rw [hz]
      omega
    · rw [if_neg hab]
      rcases List.mem_cons.mp ha with h | h
      · exact absurd h hab
      · rw [ih a hn.2 h]
        omega

theorem sum_map_add_nat (L : List String) (f g : String → ℕ) :
    (L.map (fun s => f s + g s)).sum = (L.map f).sum + (L.map g).sum := by
  induction L with
  | nil => rfl
  | cons a rest ih =>
    simp only [List.map_cons, List.sum_cons, ih]
    omega

theorem sum_postCount (u : String) :
    ∀ (df : List Post) (L : List String), L.Nodup → (∀ p ∈ df, p.2 ∈ L) →
      (L.map (fun s => postCount df u s)).sum = userTotal df u := by
  intro df
  induction df with
  | nil =>
    intro L _ _
    have h0 : ∀ s ∈ L, postCount [] u s = 0 := fun s _ => rfl
    rw [show userTotal [] u = 0 from rfl]
    apply List.sum_eq_zero
    intro x hx
    rcases List.mem_map.mp hx with ⟨s, hs, hxs⟩
    rw [← hxs]
    exact h0 s hs
  | cons p rest ih =>
    intro L hn hcov
    have step : (L.map (fun s => postCount (p :: rest) u s)).sum =
        (L.map (fun s => postCount rest u s)).sum +
          (L.map (fun s => if p.1 = u ∧ p.2 = s then 1 else 0)).sum := by
      rw [← sum_map_add_nat]
      congr 1
      apply List.map_congr_left
      intro s _
      simp [postCount, List.countP_cons]
    have indicator : (L.map (fun s => if p.1 = u ∧ p.2 = s then 1 else 0)).sum =
        if p.1 = u then 1 else 0 := by
      by_cases hpu : p.1 = u
      · rw [if_pos hpu]
        have hmap : (L.map (fun s => if p.1 = u ∧ p.2 = s then 1 else 0)) =
            (L.map (fun s => if p.2 = s then 1 else 0)) := by
          apply List.map_congr_left
          intro s _
          simp [hpu]
        rw [hmap]
        exact sum_map_ite_eq 1 L p.2 hn (hcov p (List.mem_cons_self p rest))
      · rw [if_neg hpu]
        apply List.sum_eq_zero
        intro x hx
        rcases List.mem_map.mp hx with ⟨s, _, hxs⟩
        rw [← hxs, if_neg (fun h => hpu h.1)]
    have hut : userTotal (p :: rest) u = userTotal rest u + (if p.1 = u then 1 else 0) := by
      simp [userTotal, List.countP_cons]
    rw [step, indicator, hut, ih L hn (fun q hq => hcov q (List.mem_cons_of_mem p hq))]

theorem sum_map_div (L : List String) (f : String → ℕ) (c : ℚ) :
    (L.map (fun s => (f s : ℚ) / c)).sum = ((L.map f).sum : ℚ) / c := by
  induction L with
  | nil => simp
  | cons a rest ih =>
    simp only [List.map_cons, List.sum_cons, ih]
    push_cast
    rw [add_div]

theorem allSubreddits_nodup (df : List Post) : (allSubreddits df).Nodup :=
  ((List.perm_insertionSort _ _).nodup_iff).mpr (List.nodup_dedup _)

theorem mem_allSubreddits (df : List Post) (p : Post) (hp : p ∈ df) :
    p.2 ∈ allSubreddits df :=
  ((List.perm_insertionSort _ _).mem_iff).mpr
    (List.mem_dedup.mpr (List.mem_map_of_mem Prod.snd hp))

theorem survivingUsers_total (df : List Post) (u : String) (hu : u ∈ survivingUsers df) :
    lurker_threshold ≤ userTotal df u := by
  have := (List.mem_filter.mp hu).2
  simpa using this

theorem userVector_sum (df : List Post) (u : String) (hu : u ∈ survivingUsers df) :
    (userVector df u).sum = 1 := by
  have htot : lurker_threshold ≤ userTotal df u := survivingUsers_total df u hu
  have hne : ((userTotal df u : ℚ)) ≠ 0 := by
    have : (0 : ℕ) < userTotal df u := lt_of_lt_of_le (by norm_num [lurker_threshold]) htot
    exact_mod_cast Nat.pos_iff_ne_zero.mp this
  unfold userVector
  rw [sum_map_div]
  rw [sum_postCount u df (allSubreddits df) (allSubreddits_nodup df)
    (fun p hp => mem_allSubreddits df p hp)]
  exact div_self hne

theorem pair_sublist_cons {α : Type} (x y : α) (xs l : List α) :
    List.Sublist (x :: xs) (y :: l) ↔
      List.Sublist (x :: xs) l ∨ (x = y ∧ List.Sublist xs l) := by
  constructor
  · intro h
    cases h with
    | cons _ h => exact Or.inl h
    | cons₂ _ h => exact Or.inr ⟨rfl, h⟩
  · rintro (h | ⟨rfl, h⟩)
    · exact h.cons _
    · exact h.cons₂ _

theorem edgePairs_mem (t : ℚ) :
    ∀ (l : List (String × Vec)) (a b : String),
      (a, b) ∈ edgePairs t l ↔
        ∃ v w, List.Sublist [(a, v), (b, w)] l ∧ simGE v w t = true := by
  intro l
  induction l with
  | nil =>
    intro a b
    simp [edgePairs]
  | cons q rest ih =>
    intro a b
    obtain ⟨u, v0⟩ := q
    simp only [edgePairs, List.mem_append]
    constructor
    · rintro (h | h)
      · rcases List.mem_filterMap.mp h with ⟨q, hq, hfq⟩
        by_cases hs : simGE v0 q.2 t = true
        · rw [if_pos hs] at hfq
          injection hfq with hab
          injection hab with h1 h2
          subst h1
          subst h2
          refine ⟨v0, q.2, ?_, hs⟩
          exact List.Sublist.cons₂ _ (List.singleton_sublist.mpr hq)
        · rw [if_neg hs] at hfq
          exact absurd hfq (by simp)
      · rcases (ih a b).mp h with ⟨v, w, hsub, hs⟩
        exact ⟨v, w, hsub.cons _, hs⟩
    · rintro ⟨v, w, hsub, hs⟩
      rcases (pair_sublist_cons _ _ _ _).mp hsub with h | ⟨heq, h⟩
      · exact Or.inr ((ih a b).mpr ⟨v, w, h, hs⟩)
      · injection heq with h1 h2
        subst h1
        subst h2
        left
        apply List.mem_filterMap.mpr
        refine ⟨(b, w), List.singleton_sublist.mp h, ?_⟩
        rw [if_pos hs]

theorem edgePairs_ne (t : ℚ) (l : List (String × Vec))
    (hn : (l.map Prod.fst).Nodup) (a b : String) (h : (a, b) ∈ edgePairs t l) :
    a ≠ b := by
  rcases (edgePairs_mem t l a b).mp h with ⟨v, w, hsub, _⟩
  have hmap : List.Sublist [a, b] (l.map Prod.fst) := by
    have hm := hsub.map Prod.fst
    simpa using hm
  have hnd : ([a, b] : List String).Nodup := hmap.nodup hn
  intro heq
  subst heq
  simp at hnd

theorem dot_self_eq (v : Vec) : dot v v = (v.map (fun x => x * x)).sum := by
  induction v with
  | nil => rfl
  | cons a v ih =>
    rw [show dot (a :: v) (a :: v) = a * a + dot v v from dot_cons a a v v]
    simp [ih]

theorem sum_pos_of_mem :
    ∀ l : List ℚ, (∀ y ∈ l, 0 ≤ y) → ∀ x ∈ l, 0 < x → 0 < l.sum := by
  intro l
  induction l with
  | nil => intro _ x hx; simp at hx
  | cons a rest ih =>
    intro hall x hx hpos
    rw [List.sum_cons]
    have hrest : 0 ≤ rest.sum :=
      List.sum_nonneg (fun y hy => hall y (List.mem_cons_of_mem a hy))
    rcases List.mem_cons.mp hx with rfl | hmem
    · linarith
    · have hres := ih (fun y hy => hall y (List.mem_cons_of_mem a hy)) x hmem hpos
      have ha := hall a (List.mem_cons_self a rest)
      linarith

theorem userVector_nonneg (df : List Post) (u : String) :
    ∀ x ∈ userVector df u, 0 ≤ x := by
  intro x hx
  rcases List.mem_map.mp hx with ⟨s, _, hxs⟩
  rw [← hxs]
  exact div_nonneg (Nat.cast_nonneg _) (Nat.cast_nonneg _)

theorem userVector_exists_pos (df : List Post) (u : String)
    (hu : u ∈ survivingUsers df) : ∃ x ∈ userVector df u, 0 < x := by
  have htot : lurker_threshold ≤ userTotal df u := survivingUsers_total df u hu
  have htot' : 0 < userTotal df u :=
    lt_of_lt_of_le (by norm_num [lurker_threshold]) htot
  have hex : ∃ p ∈ df, (fun p : Post => decide (p.1 = u)) p = true := by
    apply List.countP_pos.mp
    exact htot'
  obtain ⟨p0, hp0, hdec⟩ := hex
  have hp1 : p0.1 = u := of_decide_eq_true hdec
  have hs : p0.2 ∈ allSubreddits df := mem_allSubreddits df p0 hp0
  have hcount : 0 < postCount df u p0.2 := by
    apply List.countP_pos.mpr
    exact ⟨p0, hp0, decide_eq_true ⟨hp1, rfl⟩⟩
  refine ⟨(postCount df u p0.2 : ℚ) / (userTotal df u : ℚ), ?_, ?_⟩
  · exact List.mem_map.mpr ⟨p0.2, hs, rfl⟩
  · exact div_pos (by exact_mod_cast hcount) (by exact_mod_cast htot')

theorem normSq_pos_of (v : Vec) (hall : ∀ y ∈ v, 0 ≤ y) (x : ℚ) (hx : x ∈ v)
    (hpos : 0 < x) : 0 < normSq v := by
  rw [normSq, dot_self_eq]
  apply sum_pos_of_mem (v.map (fun x => x * x)) ?_ (x * x) ?_ (mul_pos hpos hpos)
  · intro y hy
    rcases List.mem_map.mp hy with ⟨z, _, hz⟩
    rw [← hz]
    exact mul_self_nonneg z
  · exact List.mem_map.mpr ⟨x, hx, rfl⟩

theorem create_mem_unpack (df : List Post) (p : String × Vec)
    (hp : p ∈ (create_user_vectors df).1) :
    p.1 ∈ survivingUsers df ∧ p.2 = userVector df p.1 := by
  rcases List.mem_map.mp hp with ⟨u, hu, heq⟩
  subst heq
  exact ⟨hu, rfl⟩

/-- Claim C1 (code bug): the claim, following the spec, requires empty
outputs (not an error) on an empty input set or zero surviving users, but
the code raises there. Whenever aggregation yields zero surviving users,
`create_user_vectors` raises `StopIteration` in the diagnostic print that
evaluates `next(iter(user_vectors.values()))` (re-raised by its exception
handler), so it returns nothing (`create_user_vectors_run df = none`); on
an empty vector set `deduplicate` (entered with any positive `runs`, in
particular the default 5) and `generate_similarity_network_vectorized`
raise in their `axis=1` normalization of the 1-D empty array (`none`
results of the run models). Off the empty case the run models agree with
the successful-path functions, and the spec-intended behavior the claim
describes would be the empty edge list and empty file content computed by
the error-collapsing definitions. -/
theorem claim_C1_empty_input_crash :
    (∀ df : List Post, (create_user_vectors df).1 = [] →
      create_user_vectors_run df = none) ∧
    (∀ (t : ℚ) (runs : ℕ), 0 < runs →
      deduplicate_run ([] : List (String × Vec)) t runs = none) ∧
    (∀ t : ℚ, generate_similarity_network_run ([] : List (String × Vec)) t = none) ∧
    (∀ df : List Post, (create_user_vectors df).1 ≠ [] →
      create_user_vectors_run df = some (create_user_vectors df)) ∧
    (∀ (uv : List (String × Vec)) (t : ℚ) (runs : ℕ),
      (uv.map Prod.fst).Nodup → uv ≠ [] →
      deduplicate_run uv t runs = some (deduplicate uv t runs)) ∧
    (∀ (uv : List (String × Vec)) (t : ℚ),
      (uv.map Prod.fst).Nodup → uv ≠ [] →
      generate_similarity_network_run uv t =
        some (generate_similarity_network_vectorized uv t)) ∧
    (∀ t : ℚ, generate_similarity_network_vectorized ([] : List (String × Vec)) t = [] ∧
      edgeLines (generate_similarity_network_vectorized ([] : List (String × Vec)) t) = "") := by
  have hdedup : deduplicate ([] : List (String × Vec)) 1 5 = [] :=
    dedupAux_fix 1 [] rfl 5 (-1)
  refine ⟨?_, ?_, ?_, ?_, ?_, ?_, ?_⟩
  · intro df h
    unfold create_user_vectors_run
    rw [if_pos h]
  · intro t runs hr
    cases runs with
    | zero => exact absurd hr (lt_irrefl 0)
    | succ r =>
      unfold deduplicate_run
      rw [dedupAuxRun]
      rw [if_neg (by decide), if_pos rfl]
  · intro t
    have h2 : deduplicate_run ([] : List (String × Vec)) 1 5 = none := by
      unfold deduplicate_run
      rw [dedupAuxRun]
      rw [if_neg (by decide), if_pos rfl]
    unfold generate_similarity_network_run
    rw [h2]
  · intro df h
    unfold create_user_vectors_run
    rw [if_neg h]
  · intro uv t runs hn hne
    exact dedupAuxRun_eq t runs (-1) uv hn hne
  · intro uv t hn hne
    exact generate_run_eq uv t hn hne
  · intro t
    constructor
    · show edgePairs t (deduplicate [] 1 5) = []
      rw [hdedup]
      rfl
    · show edgeLines (edgePairs t (deduplicate [] 1 5)) = ""
      rw [hdedup]
      rfl

/-- Witness for C1: a dataset whose only user has 1 post (below the lurker
threshold 3) yields zero surviving users, on which the run model of
`create_user_vectors` raises; the run models of `deduplicate` and of the
network generator raise on the resulting empty vector set. -/
theorem claim_C1_witness :
    (create_user_vectors [(("a" : String), ("x" : String))]).1 = [] ∧
    create_user_vectors_run [(("a" : String), ("x" : String))] = none ∧
    (0 < 5) ∧
    deduplicate_run ([] : List (String × Vec)) 1 5 = none ∧
    generate_similarity_network_run ([] : List (String × Vec)) (95 / 100) = none :=
  ⟨by decide,
    claim_C1_empty_input_crash.1 [("a", "x")] (by decide),
    by decide,
    claim_C1_empty_input_crash.2.1 1 5 (by decide),
    claim_C1_empty_input_crash.2.2.1 (95 / 100)⟩

unseal Rat.mul Rat.add Rat.inv Rat.sub in
/-- Claim C2 (as stated, refuted): the counterexample shows that calling the
similarity-network generation operation without supplying a threshold does
NOT filter at cosine similarity 0.95: on two users with similarity
`1 / sqrt 2` (below 0.95, above the true default 0.1) the default call
emits an edge while a 0.95 filter emits none. -/
theorem claim_C2_counterexample :
    generate_similarity_network_default [("a", [1, 0]), ("b", [1, 1])] = [("a", "b")] ∧
    edgePairs (95 / 100) (deduplicate [("a", [1, 0]), ("b", [1, 1])] 1 5) = [] ∧
    generate_similarity_network_default [("a", [1, 0]), ("b", [1, 1])] ≠
      generate_similarity_network_vectorized [("a", [1, 0]), ("b", [1, 1])] (95 / 100) :=
  ⟨by decide, by decide, by decide⟩

/-- Claim C2 (amended): the `threshold` parameter of
`generate_similarity_network_vectorized` defaults to 0.1, so calling it
without a threshold filters edges at cosine similarity at least 0.1; the
0.95 threshold is supplied explicitly at the pipeline call site
(`edge_list_file_vec`). -/
theorem claim_C2_amended :
    (∀ uv : List (String × Vec),
      generate_similarity_network_default uv = edgePairs (1 / 10) (deduplicate uv 1 5)) ∧
    (∀ df : List Post, edge_list_file_vec df =
      edgePairs (95 / 100) (deduplicate (create_user_vectors df).1 1 5)) ∧
    (∀ (uv : List (String × Vec)) (a b : String),
      (a, b) ∈ generate_similarity_network_default uv ↔
        ∃ v w, List.Sublist [(a, v), (b, w)] (deduplicate uv 1 5) ∧
          simGE v w (1 / 10) = true) := by
  refine ⟨fun _ => rfl, fun _ => rfl, ?_⟩
  intro uv a b
  exact edgePairs_mem (1 / 10) (deduplicate uv 1 5) a b

/-- Claim C3: deduplication is idempotent at a fixed threshold: running the
deduplicator again on its own output, with the same threshold and the same
iteration cap, returns the same user set with no further removals. -/
theorem claim_C3_dedup_idempotent (uv : List (String × Vec)) (t : ℚ) (runs : ℕ)
    (hn : (uv.map Prod.fst).Nodup) :
    deduplicate (deduplicate uv t runs) t runs = deduplicate uv t runs := by
  obtain ⟨k, hk, heq, hfix⟩ := deduplicate_spec uv t runs
  cases k with
  | zero =>
    simp only [Function.iterate_zero, id_eq] at heq
    rw [heq]
    exact heq
  | succ n =>
    have hfixR : dedupRound t (deduplicate uv t runs) = deduplicate uv t runs := by
      rw [heq, Function.iterate_succ_apply']
      exact dedupRound_idem t _ (iterate_round_keys_nodup t uv hn n)
    exact dedupAux_fix t _ hfixR runs (-1)

unseal Rat.mul Rat.add Rat.inv Rat.sub in
/-- Witness for C3: idempotence evaluated on a concrete three-user set in
which one user is a scaled duplicate of another. -/
theorem claim_C3_witness :
    (([("a", [1, 0]), ("b", [2, 0]), ("c", [0, 1])] : List (String × Vec)).map
      Prod.fst).Nodup ∧
    deduplicate (deduplicate [("a", [1, 0]), ("b", [2, 0]), ("c", [0, 1])] 1 5) 1 5 =
      deduplicate [("a", [1, 0]), ("b", [2, 0]), ("c", [0, 1])] 1 5 :=
  ⟨by decide, claim_C3_dedup_idempotent _ 1 5 (by decide)⟩

/-- Claim C6: within one deduplication round over a duplicate-free user
list, the round equals the greedy scan that keeps the first user and drops
every later user similar to a surviving earlier one: no two survivors (in
scan order) are similar, and the first-listed user always survives. -/
theorem claim_C6_round_order (t : ℚ) (l : List (String × Vec))
    (hn : (l.map Prod.fst).Nodup) :
    dedupRound t l = greedyFilter t l ∧
    List.Pairwise (fun p q => simGE p.2 q.2 t = false) (dedupRound t l) ∧
    ∀ p rest, l = p :: rest → p ∈ dedupRound t l := by
  have hg := dedupRound_eq_greedy t l hn
  refine ⟨hg, ?_, ?_⟩
  · rw [hg]
    exact greedyFilter_pairwise t l.length l le_rfl
  · intro p rest hl
    rw [hg, hl, greedyFilter_cons]
    exact List.mem_cons_self _ _

unseal Rat.mul Rat.add Rat.inv Rat.sub in
/-- Witness for C6: one round on a concrete list where the second user is a
scaled duplicate of the first (similarity exactly 1). -/
theorem claim_C6_witness :
    (([("a", [1, 0]), ("b", [2, 0]), ("c", [0, 1])] : List (String × Vec)).map
      Prod.fst).Nodup ∧
    dedupRound 1 [("a", [1, 0]), ("b", [2, 0]), ("c", [0, 1])] =
      greedyFilter 1 [("a", [1, 0]), ("b", [2, 0]), ("c", [0, 1])] :=
  ⟨by decide, (claim_C6_round_order 1 _ (by decide)).1⟩

/-- Claim C7: the deduplicator's output is a sublist (hence a subset) of its
input, every output user is an input user, each round is non-increasing in
user count, and the final count is at most the input count. -/
theorem claim_C7_subset_monotone :
    ∀ (uv : List (String × Vec)) (t : ℚ) (runs : ℕ),
      List.Sublist (deduplicate uv t runs) uv ∧
      (∀ x ∈ (deduplicate uv t runs).map Prod.fst, x ∈ uv.map Prod.fst) ∧
      (∀ l : List (String × Vec), (dedupRound t l).length ≤ l.length) ∧
      (deduplicate uv t runs).length ≤ uv.length := by
  intro uv t runs
  have hs : List.Sublist (deduplicate uv t runs) uv := dedupAux_sublist t runs (-1) uv
  exact ⟨hs, fun x hx => (hs.map Prod.fst).subset hx,
    fun l => (dedupRound_sublist t l).length_le, hs.length_le⟩

unseal Rat.mul Rat.add Rat.inv Rat.sub in
/-- Witness for C7 at a concrete input. -/
theorem claim_C7_witness :
    (deduplicate [("a", [1, 0]), ("b", [2, 0]), ("c", [0, 1])] 1 5).length ≤
      ([("a", [1, 0]), ("b", [2, 0]), ("c", [0, 1])] : List (String × Vec)).length :=
  (claim_C7_subset_monotone [("a", [1, 0]), ("b", [2, 0]), ("c", [0, 1])] 1 5).2.2.2

/-- Claim C9: the deduplication loop terminates after at most `runs` rounds
(the result is the k-fold round iterate for some k at most `runs`), and when
it stops before the cap the result is a fixed point of the round (the
user-set size, indeed the set itself, no longer changes). -/
theorem claim_C9_termination :
    ∀ (uv : List (String × Vec)) (t : ℚ) (runs : ℕ),
      ∃ k, k ≤ runs ∧ deduplicate uv t runs = (dedupRound t)^[k] uv ∧
        (k < runs → dedupRound t (deduplicate uv t runs) = deduplicate uv t runs) :=
  fun uv t runs => deduplicate_spec uv t runs

unseal Rat.mul Rat.add Rat.inv Rat.sub in
/-- Witness for C9 at a concrete input with the cap 5 used by the pipeline. -/
theorem claim_C9_witness :
    ∃ k, k ≤ 5 ∧
      deduplicate [("a", [1, 0]), ("b", [2, 0]), ("c", [0, 1])] 1 5 =
        (dedupRound 1)^[k] [("a", [1, 0]), ("b", [2, 0]), ("c", [0, 1])] ∧
      (k < 5 →
        dedupRound 1 (deduplicate [("a", [1, 0]), ("b", [2, 0]), ("c", [0, 1])] 1 5) =
          deduplicate [("a", [1, 0]), ("b", [2, 0]), ("c", [0, 1])] 1 5) :=
  claim_C9_termination [("a", [1, 0]), ("b", [2, 0]), ("c", [0, 1])] 1 5

/-- Claim C4: the emitted edge set is exactly the ordered pairs (earlier
user, later user) over the deduplicated user list whose similarity meets
`edge_threshold` (a two-element sublist of the deduplicated list encodes a
strict-upper-triangle index pair `i < j`); no self pair is emitted; and each
edge serializes as one space-separated, newline-terminated line, in scan
order, to a file opened in overwrite mode (the previous content is
ignored). -/
theorem claim_C4_edge_set (uv : List (String × Vec)) (t : ℚ)
    (hn : (uv.map Prod.fst).Nodup) :
    (∀ a b, (a, b) ∈ generate_similarity_network_vectorized uv t ↔
      ∃ v w, List.Sublist [(a, v), (b, w)] (deduplicate uv 1 5) ∧ simGE v w t = true) ∧
    (∀ a b, (a, b) ∈ generate_similarity_network_vectorized uv t → a ≠ b) ∧
    (∀ prev : String, writeEdgeFile prev (generate_similarity_network_vectorized uv t) =
      String.join ((generate_similarity_network_vectorized uv t).map
        (fun e => e.1 ++ " " ++ e.2 ++ "\n"))) := by
  have hnd : ((deduplicate uv 1 5).map Prod.fst).Nodup :=
    ((dedupAux_sublist 1 5 (-1) uv).map Prod.fst).nodup hn
  refine ⟨?_, ?_, fun _ => rfl⟩
  · intro a b
    exact edgePairs_mem t (deduplicate uv 1 5) a b
  · intro a b h
    exact edgePairs_ne t (deduplicate uv 1 5) hnd a b h

unseal Rat.mul Rat.add Rat.inv Rat.sub in
/-- Witness for C4: overwrite-mode serialization evaluated at a concrete
two-user input and previous file content. -/
theorem claim_C4_witness :
    (([("a", [1, 0]), ("b", [1, 1])] : List (String × Vec)).map Prod.fst).Nodup ∧
    writeEdgeFile "old"
      (generate_similarity_network_vectorized [("a", [1, 0]), ("b", [1, 1])] (1 / 10)) =
      String.join ((generate_similarity_network_vectorized
        [("a", [1, 0]), ("b", [1, 1])] (1 / 10)).map
          (fun e => e.1 ++ " " ++ e.2 ++ "\n")) :=
  ⟨by decide, (claim_C4_edge_set _ (1 / 10) (by decide)).2.2 "old"⟩

/-- Claim C5: for every user surviving the activity cutoff, the behavioral
vector appears in the engine's output, has dimension equal to the number of
distinct subreddits of the whole input dataset, has at each coordinate the
value `ActivityCount / UserTotal` for the subreddit at that position (0 for
unobserved pairs, by the same formula), and its coordinates sum to 1. -/
theorem claim_C5_vector_builder (df : List Post) (u : String)
    (hu : u ∈ survivingUsers df) :
    (u, userVector df u) ∈ (create_user_vectors df).1 ∧
    (userVector df u).length = (allSubreddits df).length ∧
    (allSubreddits df).length = ((df.map Prod.snd).dedup).length ∧
    (∀ i (hi : i < (userVector df u).length) (hj : i < (allSubreddits df).length),
      (userVector df u).get ⟨i, hi⟩ =
        (postCount df u ((allSubreddits df).get ⟨i, hj⟩) : ℚ) / (userTotal df u : ℚ)) ∧
    (userVector df u).sum = 1 := by
  refine ⟨List.mem_map.mpr ⟨u, hu, rfl⟩, ?_, ?_, ?_, userVector_sum df u hu⟩
  · simp [userVector]
  · exact (List.perm_insertionSort _ _).length_eq
  · intro i hi hj
    simp [userVector]

unseal Rat.mul Rat.add Rat.inv Rat.sub in
/-- Witness for C5: a user with three posts (two in one subreddit, one in
another) survives the cutoff; the vector coordinates sum to 1. -/
theorem claim_C5_witness :
    (("a" : String) ∈ survivingUsers [("a", "x"), ("a", "x"), ("a", "y")]) ∧
    (userVector [("a", "x"), ("a", "x"), ("a", "y")] "a").sum = 1 :=
  ⟨by decide, (claim_C5_vector_builder _ "a" (by decide)).2.2.2.2⟩

/-- Claim C8: the norm substitution in both the deduplicator and the
similarity engine makes the divisor positive (never zero), a zero-norm
vector is the zero vector (so normalizing it is a no-op), and the cosine
similarity of a zero-norm vector against every vector, itself included, is
0 — its comparison against any threshold `t` succeeds exactly when
`t ≤ 0`. -/
theorem claim_C8_zero_norm (v w : Vec) (t : ℚ) :
    0 < substNormSq v ∧
    (normSq v = 0 →
      (∀ x ∈ v, x = 0) ∧ simGE v w t = decide (t ≤ 0) ∧ simGE w v t = decide (t ≤ 0)) := by
  refine ⟨substNormSq_pos v, fun h0 => ?_⟩
  have hz : ∀ x ∈ v, x = 0 := normSq_eq_zero_all_zero v h0
  exact ⟨hz, simGE_of_dot_eq_zero v w t (dot_eq_zero_of_left_zero v w hz),
    simGE_of_dot_eq_zero w v t (dot_eq_zero_of_right_zero w v hz)⟩

unseal Rat.mul Rat.add Rat.inv Rat.sub in
/-- Witness for C8 at the zero vector against a nonzero vector and a
positive threshold. -/
theorem claim_C8_witness :
    normSq [0, 0] = 0 ∧ simGE [0, 0] [3, 4] (1 / 2) = decide ((1 / 2 : ℚ) ≤ 0) :=
  ⟨by decide, ((claim_C8_zero_norm [0, 0] [3, 4] (1 / 2)).2 (by decide)).2.1⟩

/-- Claim C10: every vector produced by the vector-building stage is
coordinate-wise non-negative with at least one strictly positive coordinate,
so its squared norm is positive, the zero-norm substitution branch is never
taken on it, and every pairwise similarity of pipeline vectors lies in
[0, 1]: the comparison against 0 succeeds and the comparison against any
threshold above 1 fails. -/
theorem claim_C10_similarity_range (df : List Post) (p q : String × Vec)
    (hp : p ∈ (create_user_vectors df).1) (hq : q ∈ (create_user_vectors df).1) :
    (∀ x ∈ p.2, 0 ≤ x) ∧ (∃ x ∈ p.2, 0 < x) ∧ 0 < normSq p.2 ∧
    substNormSq p.2 = normSq p.2 ∧ simGE p.2 q.2 0 = true ∧
    ∀ t : ℚ, 1 < t → simGE p.2 q.2 t = false := by
  obtain ⟨hpu, hpv⟩ := create_mem_unpack df p hp
  obtain ⟨hqu, hqv⟩ := create_mem_unpack df q hq
  have hpn : ∀ x ∈ p.2, 0 ≤ x := by rw [hpv]; exact userVector_nonneg df p.1
  have hqn : ∀ x ∈ q.2, 0 ≤ x := by rw [hqv]; exact userVector_nonneg df q.1
  have hppos : ∃ x ∈ p.2, 0 < x := by rw [hpv]; exact userVector_exists_pos df p.1 hpu
  have hqpos : ∃ x ∈ q.2, 0 < x := by rw [hqv]; exact userVector_exists_pos df q.1 hqu
  obtain ⟨xp, hxp, hxpp⟩ := hppos
  obtain ⟨xq, hxq, hxqp⟩ := hqpos
  have hnp : 0 < normSq p.2 := normSq_pos_of p.2 hpn xp hxp hxpp
  have hnq : 0 < normSq q.2 := normSq_pos_of q.2 hqn xq hxq hxqp
  have hd : 0 ≤ dot p.2 q.2 := dot_nonneg p.2 q.2 hpn hqn
  refine ⟨hpn, ⟨xp, hxp, hxpp⟩, hnp, ?_, simGE_zero_of_dot_nonneg _ _ hd, ?_⟩
  · rw [substNormSq, if_neg (ne_of_gt hnp)]
  · intro t ht
    exact simGE_false_of_gt_one p.2 q.2 t hd
      (Ne.symm (ne_of_lt hnp)) (Ne.symm (ne_of_lt hnq)) ht

unseal Rat.mul Rat.add Rat.inv Rat.sub in
/-- Witness for C10: the single pipeline vector of a three-post user has
self-similarity comparison at 0 succeed. -/
theorem claim_C10_witness :
    ((("a" : String), userVector [("a", "x"), ("a", "x"), ("a", "y")] "a") ∈
      (create_user_vectors [("a", "x"), ("a", "x"), ("a", "y")]).1) ∧
    simGE (userVector [("a", "x"), ("a", "x"), ("a", "y")] "a")
      (userVector [("a", "x"), ("a", "x"), ("a", "y")] "a") 0 = true :=
  ⟨by decide,
    (claim_C10_similarity_range [("a", "x"), ("a", "x"), ("a", "y")]
      (("a" : String), userVector [("a", "x"), ("a", "x"), ("a", "y")] "a")
      (("a" : String), userVector [("a", "x"), ("a", "x"), ("a", "y")] "a")
      (by decide) (by decide)).2.2.2.2.1⟩
